import Mathlib

/-!
Verification of the SaVSTr stylizing-network core (src/SaVSTr/network.py and
src/SaVSTr/exps_video.py) against its natural-language specification.

Tensors are shallowly embedded as shape metadata together with a total data
function into the real numbers; floating-point arithmetic of the source is
modelled as exact real arithmetic.  Every operation below is translated from
the corresponding PyTorch call in the source, with the semantics PyTorch
documents for it (bilinear interpolation with align_corners=False, biased
instance-norm variance with eps = 1e-5, clamp as max, softmax along the last
dimension, and so on).
-/

namespace SaVSTr

noncomputable section

/-- Rank-3 tensor in torch layout (batch, rows, cols): shape metadata plus a
total data function; entries outside the shape are irrelevant garbage. -/
@[ext]
structure T3 where
  b : ℕ
  r : ℕ
  c : ℕ
  data : ℕ → ℕ → ℕ → ℝ

/-- Rank-4 tensor in torch layout (batch, channels, height, width). -/
@[ext]
structure T4 where
  b : ℕ
  c : ℕ
  h : ℕ
  w : ℕ
  data : ℕ → ℕ → ℕ → ℕ → ℝ

/-- Shape tuple of a rank-4 tensor, as compared by `M.size() != fcs.size()`. -/
def T4.shape (x : T4) : ℕ × ℕ × ℕ × ℕ := (x.b, x.c, x.h, x.w)

/-- torch.bmm: batched matrix product, contracting the left inner dimension
(the source only calls it with agreeing inner dimensions). -/
def bmm (x y : T3) : T3 :=
  ⟨x.b, x.r, y.c, fun b i j => ∑ m ∈ Finset.range x.c, x.data b i m * y.data b m j⟩

/-- nn.Softmax(dim=-1): rowwise softmax along the last dimension. -/
def softmaxLastDim (x : T3) : T3 :=
  ⟨x.b, x.r, x.c, fun b i j =>
    Real.exp (x.data b i j) / ∑ m ∈ Finset.range x.c, Real.exp (x.data b i m)⟩

/-- Softmax.forward from network.py: softmax(torch.bmm(q, k)). -/
def Softmax.forward (q k : T3) : T3 := softmaxLastDim (bmm q k)

/-- LA.vector_norm(q, dim=-1, keepdim=True): Euclidean norm over the last
dimension, kept as a size-1 dimension. -/
def vecNormLastDim (x : T3) : T3 :=
  ⟨x.b, x.r, 1, fun b i _ => Real.sqrt (∑ m ∈ Finset.range x.c, (x.data b i m) ^ 2)⟩

/-- LA.vector_norm(k, dim=1, keepdim=True): Euclidean norm over the middle
dimension, kept as a size-1 dimension. -/
def vecNormDim1 (x : T3) : T3 :=
  ⟨x.b, 1, x.c, fun b _ j => Real.sqrt (∑ m ∈ Finset.range x.r, (x.data b m j) ^ 2)⟩

/-- Elementwise division of same-shaped rank-3 tensors. -/
def divT3 (x y : T3) : T3 :=
  ⟨x.b, x.r, x.c, fun b i j => x.data b i j / y.data b i j⟩

/-- Adding a scalar to every entry of a rank-3 tensor. -/
def addScalarT3 (x : T3) (a : ℝ) : T3 :=
  ⟨x.b, x.r, x.c, fun b i j => x.data b i j + a⟩

/-- s / s.sum(dim=-1, keepdim=True): divide each row by its sum. -/
def rowNormalize (s : T3) : T3 :=
  ⟨s.b, s.r, s.c, fun b i j => s.data b i j / ∑ m ∈ Finset.range s.c, s.data b i m⟩

/-- CosineSimilarity.forward shifted scores, the tensor the source names `s`:
cosine similarities of query rows against key columns, plus one. -/
def CosineSimilarity.scores (q k : T3) : T3 :=
  addScalarT3 (divT3 (bmm q k) (bmm (vecNormLastDim q) (vecNormDim1 k))) 1

/-- CosineSimilarity.forward from network.py: shifted cosine scores, then
rowwise renormalization by the row sum. -/
def CosineSimilarity.forward (q k : T3) : T3 :=
  rowNormalize (CosineSimilarity.scores q k)

/-- The two scorer strategies an AdaAttN module can be constructed with. -/
inductive Activation
  | softmax
  | cosine
deriving DecidableEq

/-- Dispatch of `self.activation(Q, K)` for a constructed module. -/
def applyActivation : Activation → T3 → T3 → T3
  | .softmax, q, k => Softmax.forward q k
  | .cosine, q, k => CosineSimilarity.forward q k

/-- Constructor-time scorer selection in AdaAttN.__init__: "softmax" and
"cosine" succeed, anything else raises ValueError. -/
def mkActivation (s : String) : Except String Activation :=
  if s = "softmax" then .ok .softmax
  else if s = "cosine" then .ok .cosine
  else .error ("Unknown activation function: " ++ s)

/-- Weights of a 1x1 nn.Conv2d with square channel count, as used for the
f, g, h projections of AdaAttN. -/
structure ConvW where
  weight : ℕ → ℕ → ℝ
  bias : ℕ → ℝ

/-- A 1x1 convolution with `dim` input and output channels: a learned linear
map across channels applied at every spatial position, plus a bias. -/
def conv1x1 (dim : ℕ) (p : ConvW) (x : T4) : T4 :=
  ⟨x.b, dim, x.h, x.w, fun b o i j =>
    (∑ m ∈ Finset.range dim, p.weight o m * x.data b m i j) + p.bias o⟩

/-- nn.InstanceNorm2d default eps. -/
def instNormEps : ℝ := 1e-5

/-- Per-sample per-channel spatial mean. -/
def spatialMean (x : T4) (b c : ℕ) : ℝ :=
  (∑ i ∈ Finset.range x.h, ∑ j ∈ Finset.range x.w, x.data b c i j) / (x.h * x.w)

/-- Per-sample per-channel biased spatial variance. -/
def spatialVar (x : T4) (b c : ℕ) : ℝ :=
  (∑ i ∈ Finset.range x.h, ∑ j ∈ Finset.range x.w,
    (x.data b c i j - spatialMean x b c) ^ 2) / (x.h * x.w)

/-- nn.InstanceNorm2d(dim, affine=False): per-sample per-channel
mean-variance normalization over the spatial dimensions. -/
def instanceNorm2d (x : T4) : T4 :=
  ⟨x.b, x.c, x.h, x.w, fun b c i j =>
    (x.data b c i j - spatialMean x b c) / Real.sqrt (spatialVar x b c + instNormEps)⟩

/-- x.view(b, -1, h * w): flatten the spatial dimensions of a contiguous
rank-4 tensor into one token dimension. -/
def viewFlatten (x : T4) : T3 :=
  ⟨x.b, x.c, x.h * x.w, fun b c k => x.data b c (k / x.w) (k % x.w)⟩

/-- permute(0, 2, 1): transpose the last two dimensions. -/
def transposeT3 (x : T3) : T3 :=
  ⟨x.b, x.c, x.r, fun b i j => x.data b j i⟩

/-- Elementwise product of same-shaped rank-3 tensors. -/
def mulT3 (x y : T3) : T3 :=
  ⟨x.b, x.r, x.c, fun b i j => x.data b i j * y.data b i j⟩

/-- Elementwise difference of same-shaped rank-3 tensors. -/
def subT3 (x y : T3) : T3 :=
  ⟨x.b, x.r, x.c, fun b i j => x.data b i j - y.data b i j⟩

/-- Elementwise square, torch's `t ** 2`. -/
def squareT3 (x : T3) : T3 :=
  ⟨x.b, x.r, x.c, fun b i j => (x.data b i j) ^ 2⟩

/-- torch clamp(min=m): elementwise max with the floor value. -/
def clampMinT3 (m : ℝ) (x : T3) : T3 :=
  ⟨x.b, x.r, x.c, fun b i j => max (x.data b i j) m⟩

/-- torch.sqrt, elementwise. -/
def sqrtT3 (x : T3) : T3 :=
  ⟨x.b, x.r, x.c, fun b i j => Real.sqrt (x.data b i j)⟩

/-- M.view(b, h_c, w_c, -1).permute(0, 3, 1, 2): lay a contiguous
(batch, tokens, channels) tensor with tokens = hc * wc back out as a
(batch, channels, hc, wc) spatial map; token (i, j) sits at row i * wc + j. -/
def tokensToSpatial (hc wc : ℕ) (x : T3) : T4 :=
  ⟨x.b, x.c, hc, wc, fun b c i j => x.data b (i * wc + j) c⟩

/-- Source coordinate of an output pixel for bilinear interpolation with
align_corners=False: scale * (dst + 1/2) - 1/2 with the input/output size
ratio as scale, clamped below at zero as PyTorch does for bilinear. -/
def srcIndex (nIn nOut dst : ℕ) : ℝ :=
  let s : ℝ := (nIn : ℝ) / (nOut : ℝ) * ((dst : ℝ) + 1 / 2) - 1 / 2
  if s < 0 then 0 else s

/-- Lower source index: floor of the (nonnegative) source coordinate. -/
def lowIndex (nIn nOut dst : ℕ) : ℤ := ⌊srcIndex nIn nOut dst⌋

/-- Upper source index: the next index, unless already at the last row. -/
def highIndex (nIn nOut dst : ℕ) : ℤ :=
  if lowIndex nIn nOut dst < (nIn : ℤ) - 1 then lowIndex nIn nOut dst + 1
  else lowIndex nIn nOut dst

/-- Fractional interpolation weight of the upper source index. -/
def fracWeight (nIn nOut dst : ℕ) : ℝ :=
  srcIndex nIn nOut dst - (lowIndex nIn nOut dst : ℝ)

/-- F.interpolate(mode="bilinear", align_corners=False) to an explicit output
size: each output pixel is the bilinear blend of the four neighbouring input
pixels of its source coordinate. -/
def interpolateBilinear (x : T4) (hOut wOut : ℕ) : T4 :=
  ⟨x.b, x.c, hOut, wOut, fun b c i j =>
    let i0 := (lowIndex x.h hOut i).toNat
    let i1 := (highIndex x.h hOut i).toNat
    let j0 := (lowIndex x.w wOut j).toNat
    let j1 := (highIndex x.w wOut j).toNat
    let di := fracWeight x.h hOut i
    let dj := fracWeight x.w wOut j
    (1 - di) * ((1 - dj) * x.data b c i0 j0 + dj * x.data b c i0 j1)
      + di * ((1 - dj) * x.data b c i1 j0 + dj * x.data b c i1 j1)⟩

/-- Elementwise product of same-shaped rank-4 tensors. -/
def mulT4 (x y : T4) : T4 :=
  ⟨x.b, x.c, x.h, x.w, fun b c i j => x.data b c i j * y.data b c i j⟩

/-- Elementwise sum of same-shaped rank-4 tensors. -/
def addT4 (x y : T4) : T4 :=
  ⟨x.b, x.c, x.h, x.w, fun b c i j => x.data b c i j + y.data b c i j⟩

/-- An AdaAttN module: the channel count, the weights of the three 1x1
projection convolutions f, g, h (each mapping qkvDim to qkvDim channels as in
AdaAttN.__init__), and the scorer selected at construction. -/
structure AdaAttN where
  qkvDim : ℕ
  f : ConvW
  g : ConvW
  h : ConvW
  activation : Activation

/-- AdaAttN.__init__: builds the module, raising ValueError (modelled as
Except.error) on an unknown activation name. -/
def mkAdaAttN (qkvDim : ℕ) (f g h : ConvW) (activation : String) :
    Except String AdaAttN :=
  match mkActivation activation with
  | .ok a => .ok ⟨qkvDim, f, g, h, a⟩
  | .error e => .error e

/-- Q of AdaAttN.forward: f(norm_q(fc)) flattened to tokens and transposed. -/
def AdaAttN.qMat (m : AdaAttN) (fc : T4) : T3 :=
  transposeT3 (viewFlatten (conv1x1 m.qkvDim m.f (instanceNorm2d fc)))

/-- K of AdaAttN.forward: g(norm_k(fs)) flattened to tokens. -/
def AdaAttN.kMat (m : AdaAttN) (fs : T4) : T3 :=
  viewFlatten (conv1x1 m.qkvDim m.g (instanceNorm2d fs))

/-- V of AdaAttN.forward: h(fs) flattened to tokens and transposed; the
values are the projected style features, not instance-normalized. -/
def AdaAttN.vMat (m : AdaAttN) (fs : T4) : T3 :=
  transposeT3 (viewFlatten (conv1x1 m.qkvDim m.h fs))

/-- A of AdaAttN.forward: the attention matrix from the selected scorer. -/
def AdaAttN.aMat (m : AdaAttN) (fc fs : T4) : T3 :=
  applyActivation m.activation (m.qMat fc) (m.kMat fs)

/-- M of AdaAttN.forward: attention-weighted mean torch.bmm(A, V). -/
def AdaAttN.mMat (m : AdaAttN) (fc fs : T4) : T3 :=
  bmm (m.aMat fc fs) (m.vMat fs)

/-- Var of AdaAttN.forward: torch.bmm(A, V ** 2) - M ** 2. -/
def AdaAttN.varMat (m : AdaAttN) (fc fs : T4) : T3 :=
  subT3 (bmm (m.aMat fc fs) (squareT3 (m.vMat fs))) (squareT3 (m.mMat fc fs))

/-- S of AdaAttN.forward: torch.sqrt(Var.clamp(min=1e-6)). -/
def AdaAttN.sMat (m : AdaAttN) (fc fs : T4) : T3 :=
  sqrtT3 (clampMinT3 (1e-6) (m.varMat fc fs))

/-- AdaAttN.forward, lines 134-168 of network.py: attention statistics M and
S are reshaped to the content spatial layout, bilinearly resized to the shape
of fcs when the shapes differ, and combined as S * norm_v(fcs) + M. -/
def AdaAttN.forward (m : AdaAttN) (fc fs fcs : T4) : T4 :=
  let M4 := tokensToSpatial fc.h fc.w (m.mMat fc fs)
  let S4 := tokensToSpatial fc.h fc.w (m.sMat fc fs)
  let M5 := if M4.shape ≠ fcs.shape then interpolateBilinear M4 fcs.h fcs.w else M4
  let S5 := if M4.shape ≠ fcs.shape then interpolateBilinear S4 fcs.h fcs.w else S4
  addT4 (mulT4 S5 (instanceNorm2d fcs)) M5

/-- Reflection of an out-of-range index into [0, n), as nn.ReflectionPad2d
produces it for padding smaller than the input size. -/
def reflectIdx (n : ℕ) (i : ℤ) : ℤ :=
  if i < 0 then -i else if (n : ℤ) ≤ i then 2 * (n : ℤ) - 2 - i else i

/-- The Conv block of network.py: ReflectionPad2d(floor(kernel/2)) followed
by nn.Conv2d(cin, cout, kernel, stride); output spatial size is the usual
floor((padded - kernel) / stride) + 1. -/
def convRefl (cin cout kernel stride : ℕ) (wt : ℕ → ℕ → ℕ → ℕ → ℝ)
    (bias : ℕ → ℝ) (x : T4) : T4 :=
  let p := kernel / 2
  ⟨x.b, cout, (x.h + 2 * p - kernel) / stride + 1, (x.w + 2 * p - kernel) / stride + 1,
    fun b o i j =>
      (∑ c ∈ Finset.range cin, ∑ di ∈ Finset.range kernel, ∑ dj ∈ Finset.range kernel,
        wt o c di dj *
          x.data b c (reflectIdx x.h ((stride * i + di : ℤ) - p)).toNat
            (reflectIdx x.w ((stride * j + dj : ℤ) - p)).toNat) + bias o⟩

/-- nn.ReLU, elementwise. -/
def reluT4 (x : T4) : T4 :=
  ⟨x.b, x.c, x.h, x.w, fun b c i j => max (x.data b c i j) 0⟩

/-- ConvTanh rescaling: (tanh(x) + 1) / 2 * 255, elementwise. -/
def tanhRescaleT4 (x : T4) : T4 :=
  ⟨x.b, x.c, x.h, x.w, fun b c i j => (Real.tanh (x.data b c i j) + 1) / 2 * 255⟩

/-- F.interpolate with an exact integer scale_factor: the bilinear resize to
scale times the input size. -/
def interpolateByScale (scale : ℕ) (x : T4) : T4 :=
  interpolateBilinear x (x.h * scale) (x.w * scale)

/-- Weights of one general convolution layer. -/
structure Conv2dW where
  weight : ℕ → ℕ → ℕ → ℕ → ℝ
  bias : ℕ → ℝ

/-- One block of the Decoder architecture: the convolution blocks defined at
the top of network.py, identified by their wrapping nonlinearity/resize. -/
inductive DBlock
  | convReLU (cin cout kernel stride : ℕ)
  | convReluInterp (cin cout kernel stride scale : ℕ)
  | convTanh (cin cout kernel stride : ℕ)
  | convPlain (cin cout kernel stride : ℕ)
deriving DecidableEq

/-- Input channel count of a block. -/
def DBlock.cin : DBlock → ℕ
  | .convReLU ci _ _ _ => ci
  | .convReluInterp ci _ _ _ _ => ci
  | .convTanh ci _ _ _ => ci
  | .convPlain ci _ _ _ => ci

/-- Output channel count of a block. -/
def DBlock.cout : DBlock → ℕ
  | .convReLU _ co _ _ => co
  | .convReluInterp _ co _ _ _ => co
  | .convTanh _ co _ _ => co
  | .convPlain _ co _ _ => co

/-- Whether the block ends in a bilinear upsampling stage. -/
def DBlock.isUpsample : DBlock → Bool
  | .convReluInterp _ _ _ _ _ => true
  | _ => false

/-- Whether a nonlinearity is applied after the block's convolution. -/
def DBlock.hasTrailingNonlinearity : DBlock → Bool
  | .convReLU _ _ _ _ => true
  | .convReluInterp _ _ _ _ _ => true
  | .convTanh _ _ _ _ => true
  | .convPlain _ _ _ _ => false

/-- Forward semantics of one block, given its convolution weights. -/
def DBlock.run (blk : DBlock) (wts : Conv2dW) (x : T4) : T4 :=
  match blk with
  | .convReLU ci co k s => reluT4 (convRefl ci co k s wts.weight wts.bias x)
  | .convReluInterp ci co k s sc =>
      interpolateByScale sc (reluT4 (convRefl ci co k s wts.weight wts.bias x))
  | .convTanh ci co k s => tanhRescaleT4 (convRefl ci co k s wts.weight wts.bias x)
  | .convPlain ci co k s => convRefl ci co k s wts.weight wts.bias x

/-- Decoder.__init__ self.conv1: the first Sequential stage; its first block
upsamples exactly when multi_scale is false. -/
def decoderConv1 (multiScale : Bool) : List DBlock :=
  [if multiScale then .convReLU 512 256 3 1 else .convReluInterp 512 256 3 1 2,
   .convReLU 256 256 3 1,
   .convReLU 256 256 3 1,
   .convReLU 256 256 3 1,
   .convReluInterp 256 128 3 1 2]

/-- Decoder.__init__ self.conv2. -/
def decoderConv2 : List DBlock :=
  [.convReLU 128 128 3 1,
   .convReluInterp 128 64 3 1 2]

/-- Decoder.__init__ self.conv3. -/
def decoderConv3 : List DBlock :=
  [.convReLU 64 64 3 1,
   .convReLU 64 3 3 1]

/-- The full cascade the Decoder's forward runs, conv1 then conv2 then conv3. -/
def decoderBlocks (multiScale : Bool) : List DBlock :=
  decoderConv1 multiScale ++ decoderConv2 ++ decoderConv3

/-- Running a list of blocks in order, drawing each block's weights from the
per-position weight assignment starting at the given index. -/
def runBlocksFrom (wts : ℕ → Conv2dW) : List DBlock → ℕ → T4 → T4
  | [], _, x => x
  | blk :: rest, idx, x => runBlocksFrom wts rest (idx + 1) (blk.run (wts idx) x)

/-- Decoder.forward: the input runs through conv1, conv2 and conv3 in order. -/
def Decoder.forward (multiScale : Bool) (wts : ℕ → Conv2dW) (x : T4) : T4 :=
  runBlocksFrom wts (decoderBlocks multiScale) 0 x

/-- The AdaViT stylizing network: three AdaAttN layers and a decoder with
multi_scale=False, as assembled in AdaViT.__init__. -/
structure AdaViT where
  adaattn1 : AdaAttN
  adaattn2 : AdaAttN
  adaattn3 : AdaAttN
  decWts : ℕ → Conv2dW

/-- AdaViT.__init__: all three AdaAttN layers share qkv_dim = 512 and the
activation name, whose validation can fail as in AdaAttN.__init__. -/
def mkAdaViT (f1 g1 h1 f2 g2 h2 f3 g3 h3 : ConvW) (decWts : ℕ → Conv2dW)
    (activation : String) : Except String AdaViT :=
  match mkActivation activation with
  | .ok a =>
      .ok ⟨⟨512, f1, g1, h1, a⟩, ⟨512, f2, g2, h2, a⟩, ⟨512, f3, g3, h3, a⟩, decWts⟩
  | .error e => .error e

/-- The tensor AdaViT.forward passes to the decoder: the third AdaAttN
output, produced by feeding each encoder level together with the previous
fused result, starting from fcs = fc[0]. -/
def AdaViT.decoderInput (net : AdaViT) (fc fs : ℕ → T4) : T4 :=
  net.adaattn3.forward (fc 2) (fs 2)
    (net.adaattn2.forward (fc 1) (fs 1)
      (net.adaattn1.forward (fc 0) (fs 0) (fc 0)))

/-- AdaViT.forward, lines 180-185 of network.py. -/
def AdaViT.forward (net : AdaViT) (fc fs : ℕ → T4) : T4 :=
  Decoder.forward false net.decWts (net.decoderInput fc fs)

/-- Modelled from the spec: step 3 of the AdaAttN algorithm laid out at the
spatial position of each query token, M = A.V as the attention-weighted mean
of the style values, written as a direct sum over style tokens. -/
def specMeanMap (m : AdaAttN) (fc fs : T4) : T4 :=
  ⟨fc.b, m.qkvDim, fc.h, fc.w, fun b ch i j =>
    ∑ t ∈ Finset.range (fs.h * fs.w),
      (m.aMat fc fs).data b (i * fc.w + j) t * (m.vMat fs).data b t ch⟩

/-- Modelled from the spec: the attention-weighted standard deviation,
S = sqrt of (E[V^2] - M^2 clamped to at least 1e-6), with the weighted second
moment written as a direct sum over style tokens. -/
def specStdMap (m : AdaAttN) (fc fs : T4) : T4 :=
  ⟨fc.b, m.qkvDim, fc.h, fc.w, fun b ch i j =>
    Real.sqrt (max
      ((∑ t ∈ Finset.range (fs.h * fs.w),
        (m.aMat fc fs).data b (i * fc.w + j) t * ((m.vMat fs).data b t ch) ^ 2)
        - ((specMeanMap m fc fs).data b ch i j) ^ 2)
      (1e-6))⟩

/-- Modelled from the spec: steps 4 and 5 of the AdaAttN algorithm, the
statistics bilinearly resized to the shape of fcs when it differs, and the
output S * instance_normalize(fcs) + M. -/
def specAdaAttN (m : AdaAttN) (fc fs fcs : T4) : T4 :=
  let M := specMeanMap m fc fs
  let S := specStdMap m fc fs
  let Mr := if M.shape ≠ fcs.shape then interpolateBilinear M fcs.h fcs.w else M
  let Sr := if M.shape ≠ fcs.shape then interpolateBilinear S fcs.h fcs.w else S
  ⟨Sr.b, Sr.c, Sr.h, Sr.w, fun b c i j =>
    Sr.data b c i j * (instanceNorm2d fcs).data b c i j + Mr.data b c i j⟩

/-- A video frame as decoded by OpenCV: a height-by-width array of pixel
rows; frame[i] selects row i. -/
structure VFrame where
  rows : ℕ → ℕ → ℝ

/-- The body of the evaluation loop of exps_video.py, applied to the frames
still to be read: each iteration reads one frame, appends it to the buffer,
stylizes and compares the pair cv2_to_tensor(frame[0]), cv2_to_tensor(frame[1])
drawn from the newly read frame, then pops the front of the buffer.  The
returned list records, per iteration, which two pixel arrays are handed to
the stylizer. -/
def videoLoopPairs : List VFrame → List VFrame → List ((ℕ → ℝ) × (ℕ → ℝ))
  | _, [] => []
  | buffer, f :: rest =>
      (f.rows 0, f.rows 1) :: videoLoopPairs ((buffer ++ [f]).drop 1) rest

/-- The whole video processing of exps_video.py: the first frame is read
into the buffer before the loop, all remaining frames are consumed by the
loop. -/
def processedPairs (video : List VFrame) : List ((ℕ → ℝ) × (ℕ → ℝ)) :=
  match video with
  | [] => []
  | f0 :: rest => videoLoopPairs [f0] rest

/-- The loss accumulation of the loop: optical_loss starts at 0 and adds the
per-pair masked error, count starts at 0 and adds 1 per processed pair. -/
def accumulateLoss (losses : List ℝ) : ℝ × ℕ :=
  losses.foldl (fun acc l => (acc.1 + l, acc.2 + 1)) (0, 0)

/-- The value printed at the end of exps_video.py:
optical_loss = torch.sqrt(optical_loss) / count. -/
def reportedOpticalLoss (losses : List ℝ) : ℝ :=
  Real.sqrt (accumulateLoss losses).1 / ((accumulateLoss losses).2 : ℝ)

/-- Modelled from the spec: the root of the accumulated mean of the per-pair
errors, a root-mean-square over all processed frame pairs. -/
def rmsOfLosses (losses : List ℝ) : ℝ :=
  Real.sqrt (losses.sum / (losses.length : ℝ))

/-! Shape bookkeeping lemmas shared by several theorems. -/

lemma applyActivation_b (a : Activation) (q k : T3) : (applyActivation a q k).b = q.b := by
  cases a <;> rfl

lemma applyActivation_r (a : Activation) (q k : T3) : (applyActivation a q k).r = q.r := by
  cases a <;> rfl

lemma applyActivation_c (a : Activation) (q k : T3) : (applyActivation a q k).c = k.c := by
  cases a <;> rfl

lemma aMat_b (m : AdaAttN) (fc fs : T4) : (m.aMat fc fs).b = fc.b := by
  rw [AdaAttN.aMat, applyActivation_b]; rfl

lemma aMat_c (m : AdaAttN) (fc fs : T4) : (m.aMat fc fs).c = fs.h * fs.w := by
  rw [AdaAttN.aMat, applyActivation_c]; rfl

lemma mStat_shape (m : AdaAttN) (fc fs : T4) :
    (tokensToSpatial fc.h fc.w (m.mMat fc fs)).shape = (fc.b, m.qkvDim, fc.h, fc.w) := by
  have hb : (tokensToSpatial fc.h fc.w (m.mMat fc fs)).shape
      = ((m.aMat fc fs).b, m.qkvDim, fc.h, fc.w) := rfl
  rw [hb, aMat_b]

lemma sStat_shape (m : AdaAttN) (fc fs : T4) :
    (tokensToSpatial fc.h fc.w (m.sMat fc fs)).shape = (fc.b, m.qkvDim, fc.h, fc.w) := by
  have hb : (tokensToSpatial fc.h fc.w (m.sMat fc fs)).shape
      = ((m.aMat fc fs).b, m.qkvDim, fc.h, fc.w) := rfl
  rw [hb, aMat_b]

lemma interp_shape (x : T4) (hOut wOut : ℕ) :
    (interpolateBilinear x hOut wOut).shape = (x.b, x.c, hOut, wOut) := rfl

lemma adaattn_forward_shape (m : AdaAttN) (fc fs fcs : T4)
    (hb : fc.b = fcs.b) (hq : m.qkvDim = fcs.c) :
    (m.forward fc fs fcs).shape = fcs.shape := by
  rw [AdaAttN.forward]
  by_cases hcond : (tokensToSpatial fc.h fc.w (m.mMat fc fs)).shape = fcs.shape
  · simp only [hcond, ne_eq, not_true_eq_false, if_false]
    have hs : (tokensToSpatial fc.w fc.h (m.sMat fc fs)).shape
        = (tokensToSpatial fc.w fc.h (m.sMat fc fs)).shape := rfl
    calc (addT4 (mulT4 (tokensToSpatial fc.h fc.w (m.sMat fc fs)) (instanceNorm2d fcs))
            (tokensToSpatial fc.h fc.w (m.mMat fc fs))).shape
        = (tokensToSpatial fc.h fc.w (m.sMat fc fs)).shape := rfl
      _ = (fc.b, m.qkvDim, fc.h, fc.w) := sStat_shape m fc fs
      _ = (tokensToSpatial fc.h fc.w (m.mMat fc fs)).shape := (mStat_shape m fc fs).symm
      _ = fcs.shape := hcond
  · simp only [hcond, ne_eq, not_false_eq_true, if_true]
    calc (addT4
            (mulT4 (interpolateBilinear (tokensToSpatial fc.h fc.w (m.sMat fc fs)) fcs.h fcs.w)
              (instanceNorm2d fcs))
            (interpolateBilinear (tokensToSpatial fc.h fc.w (m.mMat fc fs)) fcs.h fcs.w)).shape
        = ((tokensToSpatial fc.h fc.w (m.sMat fc fs)).b,
            (tokensToSpatial fc.h fc.w (m.sMat fc fs)).c, fcs.h, fcs.w) := rfl
      _ = (fc.b, m.qkvDim, fcs.h, fcs.w) := by
            rw [show (tokensToSpatial fc.h fc.w (m.sMat fc fs)).b = (m.aMat fc fs).b from rfl,
              aMat_b]
            rfl
      _ = (fcs.b, fcs.c, fcs.h, fcs.w) := by rw [hb, hq]
      _ = fcs.shape := rfl

/-! Concrete inputs used by witnesses and counterexamples. -/

/-- All-zero weights for a 1x1 projection convolution. -/
def cw0 : ConvW := ⟨fun _ _ => 0, fun _ => 0⟩

/-- All-zero weights for a general convolution. -/
def conv2dW0 : Conv2dW := ⟨fun _ _ _ _ => 0, fun _ => 0⟩

/-- A tiny AdaAttN module with one channel and the softmax scorer. -/
def adaAttN1 : AdaAttN := ⟨1, cw0, cw0, cw0, .softmax⟩

/-- A 1x1x1x1 all-zero feature map. -/
def t4a : T4 := ⟨1, 1, 1, 1, fun _ _ _ _ => 0⟩

/-- A 1x1x2x3 all-zero feature map, spatially mismatched with t4a. -/
def t4b : T4 := ⟨1, 1, 2, 3, fun _ _ _ _ => 0⟩

/-- A one-token one-channel rank-3 tensor with every entry 1. -/
def t3one : T3 := ⟨1, 1, 1, fun _ _ _ => 1⟩

/-- C1: for inputs whose batch sizes agree and whose channel counts equal the
module's qkv dimension, AdaAttN.forward returns a tensor of exactly the shape
of the fcs input; the statement imposes nothing on the spatial sizes, so it
covers both the matching-resolution path and the bilinear-resize path. -/
theorem C1_adaattn_output_shape (m : AdaAttN) (fc fs fcs : T4)
    (_hbs : fc.b = fs.b) (hb : fc.b = fcs.b)
    (_hfc : fc.c = m.qkvDim) (_hfs : fs.c = m.qkvDim) (hfcs : fcs.c = m.qkvDim) :
    (m.forward fc fs fcs).shape = fcs.shape :=
  adaattn_forward_shape m fc fs fcs hb hfcs.symm

/-- Witness for C1, on the resize path: a 1-channel module applied to a
1x1x1x1 content/style pair with a 1x1x2x3 target. -/
theorem C1_adaattn_output_shape_witness :
    t4a.b = t4b.b ∧ t4b.c = adaAttN1.qkvDim ∧
    (adaAttN1.forward t4a t4a t4b).shape = t4b.shape :=
  ⟨rfl, rfl, C1_adaattn_output_shape adaAttN1 t4a t4a t4b rfl rfl rfl rfl rfl⟩

/-- C5: the radicand producing S in AdaAttN.forward is clamped to at least
1e-6, and therefore every entry of the S tensor computed at line 156 is
strictly positive -- for every module, every pair of inputs and every index,
including those where the unclamped variance is negative.  In this exact real
semantics the entries are genuine positive reals, so no NaN can arise. -/
theorem C5_variance_clamped_s_positive (m : AdaAttN) (fc fs : T4) (b t ch : ℕ) :
    (1e-6 : ℝ) ≤ (clampMinT3 (1e-6) (m.varMat fc fs)).data b t ch ∧
    0 < (m.sMat fc fs).data b t ch := by
  constructor
  · exact le_max_right _ _
  · exact Real.sqrt_pos.mpr (lt_of_lt_of_le (by norm_num) (le_max_right _ _))

/-- C8: every entry of the softmax scorer's attention matrix is nonnegative,
and every row sums to one, provided there is at least one key token. -/
theorem C8_softmax_rows_stochastic (q k : T3) (hk : 0 < k.c) :
    (∀ b i j, 0 ≤ (Softmax.forward q k).data b i j) ∧
    (∀ b i, ∑ j ∈ Finset.range (Softmax.forward q k).c,
      (Softmax.forward q k).data b i j = 1) := by
  have hpos : ∀ b i, 0 < ∑ m ∈ Finset.range k.c, Real.exp ((bmm q k).data b i m) :=
    fun b i => Finset.sum_pos (fun _ _ => Real.exp_pos _) ⟨0, Finset.mem_range.mpr hk⟩
  constructor
  · intro b i j
    exact div_nonneg (Real.exp_pos _).le (hpos b i).le
  · intro b i
    show (∑ j ∈ Finset.range k.c,
      Real.exp ((bmm q k).data b i j) / ∑ m ∈ Finset.range k.c, Real.exp ((bmm q k).data b i m)) = 1
    rw [← Finset.sum_div]
    exact div_self (ne_of_gt (hpos b i))

/-- Witness for C8 at a concrete one-token query/key pair. -/
theorem C8_softmax_rows_stochastic_witness :
    0 < t3one.c ∧
    ((∀ b i j, 0 ≤ (Softmax.forward t3one t3one).data b i j) ∧
      (∀ b i, ∑ j ∈ Finset.range (Softmax.forward t3one t3one).c,
        (Softmax.forward t3one t3one).data b i j = 1)) :=
  ⟨Nat.one_pos, C8_softmax_rows_stochastic t3one t3one Nat.one_pos⟩

lemma foldl_accumulate (l : List ℝ) :
    ∀ (a : ℝ) (n : ℕ),
      l.foldl (fun acc x => (acc.1 + x, acc.2 + 1)) (a, n) = (a + l.sum, n + l.length) := by
  induction l with
  | nil => intro a n; simp
  | cons x xs ih =>
      intro a n
      simp only [List.foldl_cons, List.sum_cons, List.length_cons, ih, Prod.mk.injEq]
      exact ⟨by ring, by omega⟩

lemma accumulateLoss_eq (l : List ℝ) : accumulateLoss l = (l.sum, l.length) := by
  rw [accumulateLoss, foldl_accumulate]
  simp

/-- Counterexample for C3: with two processed frame pairs of loss 1 each, the
code reports sqrt(2) / 2, while the root of the accumulated mean is 1. -/
theorem C3_counterexample : reportedOpticalLoss [1, 1] ≠ rmsOfLosses [1, 1] := by
  have h1 : reportedOpticalLoss [1, 1] = Real.sqrt 2 / 2 := by
    rw [reportedOpticalLoss, accumulateLoss_eq]
    norm_num
  have h2 : rmsOfLosses [1, 1] = 1 := by
    rw [rmsOfLosses]
    norm_num
  have hs : Real.sqrt 2 < 2 := by
    nlinarith [Real.sq_sqrt (show (0:ℝ) ≤ 2 by norm_num), Real.sqrt_nonneg 2]
  rw [h1, h2]
  intro hcontra
  have : Real.sqrt 2 = 2 := by linarith
  linarith

/-- C3 amended: the value reported at the end of the video loop is the square
root of the accumulated sum of per-frame-pair masked errors, divided by the
number of processed frame pairs (not the root of their mean). -/
theorem C3_reported_metric_formula (losses : List ℝ) :
    reportedOpticalLoss losses = Real.sqrt losses.sum / (losses.length : ℝ) := by
  rw [reportedOpticalLoss, accumulateLoss_eq]

/-- An all-zero first frame. -/
def vframeA : VFrame := ⟨fun _ _ => 0⟩

/-- An all-one second frame. -/
def vframeB : VFrame := ⟨fun _ _ => 1⟩

lemma videoLoopPairs_ignores_buffer (video : List VFrame) :
    ∀ buffer, videoLoopPairs buffer video = video.map (fun f => (f.rows 0, f.rows 1)) := by
  induction video with
  | nil => intro buffer; rfl
  | cons f rest ih =>
      intro buffer
      simp only [videoLoopPairs, List.map_cons, ih]

/-- C4 evaluated at a failing input: on a two-frame video the single
processed pair consists of row 0 and row 1 of the second (newly read) frame
-- `frame[0]` and `frame[1]` -- and its first component does not come from
the first frame at all, although the claim says the stylized-and-compared
images are the consecutive frames at times t and t+1. -/
theorem C4_video_loop_stylizes_rows_of_new_frame :
    processedPairs [vframeA, vframeB] = [(vframeB.rows 0, vframeB.rows 1)] ∧
    vframeB.rows 0 0 ≠ vframeA.rows 0 0 := by
  constructor
  · rfl
  · norm_num [vframeA, vframeB]

lemma specMean_eq (m : AdaAttN) (fc fs : T4) :
    specMeanMap m fc fs = tokensToSpatial fc.h fc.w (m.mMat fc fs) := by
  refine T4.ext ?_ rfl rfl rfl ?_
  · exact (aMat_b m fc fs).symm
  · funext b ch i j
    show (∑ t ∈ Finset.range (fs.h * fs.w),
        (m.aMat fc fs).data b (i * fc.w + j) t * (m.vMat fs).data b t ch)
      = ∑ t ∈ Finset.range ((m.aMat fc fs).c),
        (m.aMat fc fs).data b (i * fc.w + j) t * (m.vMat fs).data b t ch
    rw [aMat_c]

lemma specStd_eq (m : AdaAttN) (fc fs : T4) :
    specStdMap m fc fs = tokensToSpatial fc.h fc.w (m.sMat fc fs) := by
  refine T4.ext ?_ rfl rfl rfl ?_
  · exact (aMat_b m fc fs).symm
  · funext b ch i j
    have hM : (specMeanMap m fc fs).data b ch i j
        = (m.mMat fc fs).data b (i * fc.w + j) ch := by
      rw [specMean_eq]; rfl
    show Real.sqrt (max
        ((∑ t ∈ Finset.range (fs.h * fs.w),
          (m.aMat fc fs).data b (i * fc.w + j) t * ((m.vMat fs).data b t ch) ^ 2)
          - ((specMeanMap m fc fs).data b ch i j) ^ 2) (1e-6))
      = Real.sqrt (max
        ((∑ t ∈ Finset.range ((m.aMat fc fs).c),
          (m.aMat fc fs).data b (i * fc.w + j) t * ((m.vMat fs).data b t ch) ^ 2)
          - ((m.mMat fc fs).data b (i * fc.w + j) ch) ^ 2) (1e-6))
    rw [hM, aMat_c]

/-- C2: AdaAttN.forward coincides, for every module and every input triple,
with the specification-level formula S * instance_normalize(fcs) + M, where M
is the attention-weighted mean of the style values over style tokens, S the
attention-weighted standard deviation with variance clamped at 1e-6, both
bilinearly resized to fcs when their spatial shape differs from it. -/
theorem C2_adaattn_statistical_transfer (m : AdaAttN) (fc fs fcs : T4) :
    m.forward fc fs fcs = specAdaAttN m fc fs fcs := by
  simp only [AdaAttN.forward, specAdaAttN, specMean_eq, specStd_eq]
  rfl

/-- The final-stage shape the claim asserts: a plain convolution or a
Tanh-rescaled convolution, with no nonlinearity after the last convolution. -/
def isPlainOrTanhFinal : DBlock → Bool
  | .convPlain _ _ _ _ => true
  | .convTanh _ _ _ _ => true
  | _ => false

/-- Counterexample for C6: in both decoder variants the final stage is
ConvReLU(64, 3, 3, 1) -- a ReLU does follow the last convolution -- so the
final stage is neither a plain nor a Tanh-rescaled convolution. -/
theorem C6_counterexample :
    (decoderBlocks false).getLast? = some (DBlock.convReLU 64 3 3 1) ∧
    (decoderBlocks true).getLast? = some (DBlock.convReLU 64 3 3 1) ∧
    isPlainOrTanhFinal (DBlock.convReLU 64 3 3 1) = false ∧
    DBlock.hasTrailingNonlinearity (DBlock.convReLU 64 3 3 1) = true := by
  decide

/-- Whether consecutive blocks of a cascade have matching channel counts. -/
def composable : List DBlock → Bool
  | [] => true
  | [_] => true
  | a :: b :: rest => (a.cout == b.cin) && composable (b :: rest)

lemma runBlocksFrom_relu_last (wts : ℕ → Conv2dW) :
    ∀ (blocks : List DBlock) (idx : ℕ) (x : T4) (ci co ker st : ℕ),
      blocks.getLast? = some (DBlock.convReLU ci co ker st) →
      ∀ b c i j, 0 ≤ (runBlocksFrom wts blocks idx x).data b c i j := by
  intro blocks
  induction blocks with
  | nil => intro idx x ci co ker st hlast; simp at hlast
  | cons blk rest ih =>
      intro idx x ci co ker st hlast b c i j
      cases rest with
      | nil =>
          have hblk : blk = DBlock.convReLU ci co ker st := by
            simpa using hlast
          subst hblk
          show 0 ≤ max
            ((convRefl ci co ker st (wts idx).weight (wts idx).bias x).data b c i j) 0
          exact le_max_right _ _
      | cons blk2 rest2 =>
          have hlast2 : (blk2 :: rest2).getLast? = some (DBlock.convReLU ci co ker st) := by
            rwa [List.getLast?_cons_cons] at hlast
          exact ih (idx + 1) (blk.run (wts idx) x) ci co ker st hlast2 b c i j

/-- C6 amended: the decoder is the fixed composable cascade with channel
milestones 512, 256, 128, 64, 3; it contains exactly two bilinear
upsample-by-2 stages in the multi-scale variant and three in the other (the
extra one in the first stage); its final stage is ConvReLU(64, 3, 3, 1), a
convolution producing 3 channels followed by a ReLU, so the decoded image is
3-channel and entrywise nonnegative. -/
theorem C6_decoder_cascade (ms : Bool) :
    composable (decoderBlocks ms) = true ∧
    (decoderBlocks ms).head?.map DBlock.cin = some 512 ∧
    ((decoderBlocks ms).map DBlock.cin).dedup = [512, 256, 128, 64] ∧
    ((decoderBlocks ms).map DBlock.cout).dedup = [256, 128, 64, 3] ∧
    ((decoderBlocks ms).filter (fun blk => blk.isUpsample)).length
      = (if ms then 2 else 3) ∧
    (decoderBlocks ms).getLast? = some (DBlock.convReLU 64 3 3 1) ∧
    (∀ wts x, (Decoder.forward ms wts x).c = 3) ∧
    (∀ wts x b c i j, 0 ≤ (Decoder.forward ms wts x).data b c i j) := by
  cases ms
  · exact ⟨by decide, by decide, by decide, by decide, by decide, by decide,
      fun wts x => rfl,
      fun wts x b c i j =>
        runBlocksFrom_relu_last wts (decoderBlocks false) 0 x 64 3 3 1 (by decide) b c i j⟩
  · exact ⟨by decide, by decide, by decide, by decide, by decide, by decide,
      fun wts x => rfl,
      fun wts x b c i j =>
        runBlocksFrom_relu_last wts (decoderBlocks true) 0 x 64 3 3 1 (by decide) b c i j⟩

/-- An AdaAttN module with the source's qkv_dim = 512 and zero weights. -/
def adaAttN512 : AdaAttN := ⟨512, cw0, cw0, cw0, .softmax⟩

/-- An AdaViT network with zero weights, as built for activation "softmax". -/
def adaViT0 : AdaViT := ⟨adaAttN512, adaAttN512, adaAttN512, fun _ => conv2dW0⟩

/-- Concrete encoder levels: every level a 1x512x1x2 all-zero feature map. -/
def fcLevels : ℕ → T4 := fun _ => ⟨1, 512, 1, 2, fun _ _ _ _ => 0⟩

lemma shape_components (x : T4) (sb sc sh sw : ℕ) (hs : x.shape = (sb, sc, sh, sw)) :
    x.b = sb ∧ x.c = sc ∧ x.h = sh ∧ x.w = sw := by
  simp only [T4.shape, Prod.mk.injEq] at hs
  exact ⟨hs.1, hs.2.1, hs.2.2.1, hs.2.2.2⟩

/-- Counterexample for C7: AdaViT.forward hands the third AdaAttN output to
the decoder unchanged, so for non-square encoder levels the tensor reaching
the decoder is not square -- here 1x2 -- refuting the claimed reshape to a
square spatial map. -/
theorem C7_counterexample :
    (adaViT0.decoderInput fcLevels fcLevels).h = 1 ∧
    (adaViT0.decoderInput fcLevels fcLevels).w = 2 ∧
    (adaViT0.decoderInput fcLevels fcLevels).h ≠ (adaViT0.decoderInput fcLevels fcLevels).w := by
  have s1 : (adaAttN512.forward (fcLevels 0) (fcLevels 0) (fcLevels 0)).shape
      = (fcLevels 0).shape :=
    adaattn_forward_shape adaAttN512 (fcLevels 0) (fcLevels 0) (fcLevels 0) rfl rfl
  obtain ⟨h1b, h1c, _, _⟩ := shape_components _ 1 512 1 2 s1
  have s2 : (adaAttN512.forward (fcLevels 1) (fcLevels 1)
      (adaAttN512.forward (fcLevels 0) (fcLevels 0) (fcLevels 0))).shape
      = (adaAttN512.forward (fcLevels 0) (fcLevels 0) (fcLevels 0)).shape :=
    adaattn_forward_shape adaAttN512 (fcLevels 1) (fcLevels 1) _ h1b.symm h1c.symm
  obtain ⟨h2b, h2c, _, _⟩ := shape_components _ 1 512 1 2 (s2.trans s1)
  have s3 : (adaViT0.decoderInput fcLevels fcLevels).shape
      = (adaAttN512.forward (fcLevels 1) (fcLevels 1)
          (adaAttN512.forward (fcLevels 0) (fcLevels 0) (fcLevels 0))).shape :=
    adaattn_forward_shape adaAttN512 (fcLevels 2) (fcLevels 2) _ h2b.symm h2c.symm
  obtain ⟨_, _, hh, hw⟩ := shape_components _ 1 512 1 2 ((s3.trans s2).trans s1)
  exact ⟨hh, hw, by rw [hh, hw]; omega⟩

/-- C7 amended: the three AdaAttN layers are applied in sequence, layer i
taking encoder level i of content and style together with the previous fused
output and the first layer taking fcs = fc 0; the final fused tensor goes to
the decoder exactly as produced -- no reshape -- and, when batch sizes and
channel counts match the modules, its shape equals that of fc 0 (which need
not be square). -/
theorem C7_sequential_fusion_no_reshape (net : AdaViT) (fc fs : ℕ → T4)
    (hq1 : net.adaattn1.qkvDim = (fc 0).c)
    (hq2 : net.adaattn2.qkvDim = (fc 0).c)
    (hq3 : net.adaattn3.qkvDim = (fc 0).c)
    (hb1 : (fc 1).b = (fc 0).b) (hb2 : (fc 2).b = (fc 0).b) :
    net.forward fc fs = Decoder.forward false net.decWts
      (net.adaattn3.forward (fc 2) (fs 2)
        (net.adaattn2.forward (fc 1) (fs 1)
          (net.adaattn1.forward (fc 0) (fs 0) (fc 0)))) ∧
    (net.decoderInput fc fs).shape = (fc 0).shape := by
  refine ⟨rfl, ?_⟩
  have s1 : (net.adaattn1.forward (fc 0) (fs 0) (fc 0)).shape = (fc 0).shape :=
    adaattn_forward_shape net.adaattn1 (fc 0) (fs 0) (fc 0) rfl hq1
  have h1b : (net.adaattn1.forward (fc 0) (fs 0) (fc 0)).b = (fc 0).b :=
    congrArg Prod.fst s1
  have h1c : (net.adaattn1.forward (fc 0) (fs 0) (fc 0)).c = (fc 0).c :=
    congrArg (fun t => t.2.1) s1
  have s2 : (net.adaattn2.forward (fc 1) (fs 1)
      (net.adaattn1.forward (fc 0) (fs 0) (fc 0))).shape
      = (net.adaattn1.forward (fc 0) (fs 0) (fc 0)).shape :=
    adaattn_forward_shape net.adaattn2 (fc 1) (fs 1) _
      (hb1.trans h1b.symm) (hq2.trans h1c.symm)
  have h2b : (net.adaattn2.forward (fc 1) (fs 1)
      (net.adaattn1.forward (fc 0) (fs 0) (fc 0))).b = (fc 0).b :=
    congrArg Prod.fst (s2.trans s1)
  have h2c : (net.adaattn2.forward (fc 1) (fs 1)
      (net.adaattn1.forward (fc 0) (fs 0) (fc 0))).c = (fc 0).c :=
    congrArg (fun t => t.2.1) (s2.trans s1)
  have s3 : (net.decoderInput fc fs).shape
      = (net.adaattn2.forward (fc 1) (fs 1)
          (net.adaattn1.forward (fc 0) (fs 0) (fc 0))).shape :=
    adaattn_forward_shape net.adaattn3 (fc 2) (fs 2) _
      (hb2.trans h2b.symm) (hq3.trans h2c.symm)
  exact (s3.trans s2).trans s1

/-- Witness for C7 amended, at the concrete zero-weight network and the
1x512x1x2 encoder levels. -/
theorem C7_sequential_fusion_no_reshape_witness :
    adaViT0.adaattn1.qkvDim = (fcLevels 0).c ∧
    (adaViT0.forward fcLevels fcLevels = Decoder.forward false adaViT0.decWts
        (adaViT0.adaattn3.forward (fcLevels 2) (fcLevels 2)
          (adaViT0.adaattn2.forward (fcLevels 1) (fcLevels 1)
            (adaViT0.adaattn1.forward (fcLevels 0) (fcLevels 0) (fcLevels 0)))) ∧
      (adaViT0.decoderInput fcLevels fcLevels).shape = (fcLevels 0).shape) :=
  ⟨rfl, C7_sequential_fusion_no_reshape adaViT0 fcLevels fcLevels rfl rfl rfl rfl rfl⟩

lemma mkActivation_unknown (s : String) (h1 : s ≠ "softmax") (h2 : s ≠ "cosine") :
    mkActivation s = .error ("Unknown activation function: " ++ s) := by
  rw [mkActivation, if_neg h1, if_neg h2]

/-- C9: constructing an AdaAttN succeeds exactly for the activation names
"softmax" and "cosine"; any other name yields the ValueError at construction
time, and a successfully constructed module carries one of the two total
scorers, so its forward pass cannot fail on account of the activation name. -/
theorem C9_activation_name_validation (qkv : ℕ) (f g h : ConvW) (s : String) :
    ((∃ m, mkAdaAttN qkv f g h s = .ok m) ↔ (s = "softmax" ∨ s = "cosine")) ∧
    (s ≠ "softmax" → s ≠ "cosine" →
      mkAdaAttN qkv f g h s = .error ("Unknown activation function: " ++ s)) ∧
    (∀ m, mkAdaAttN qkv f g h s = .ok m →
      m.activation = Activation.softmax ∨ m.activation = Activation.cosine) := by
  refine ⟨⟨?_, ?_⟩, ?_, ?_⟩
  · rintro ⟨m, hm⟩
    by_cases h1 : s = "softmax"
    · exact Or.inl h1
    by_cases h2 : s = "cosine"
    · exact Or.inr h2
    rw [mkAdaAttN, mkActivation_unknown s h1 h2] at hm
    exact Except.noConfusion hm
  · rintro (rfl | rfl)
    · exact ⟨⟨qkv, f, g, h, .softmax⟩, rfl⟩
    · exact ⟨⟨qkv, f, g, h, .cosine⟩, rfl⟩
  · intro h1 h2
    rw [mkAdaAttN, mkActivation_unknown s h1 h2]
  · intro m hm
    cases hact : mkActivation s with
    | ok a =>
        rw [mkAdaAttN, hact] at hm
        have hma : m.activation = a := by
          cases hm
          rfl
        cases a
        · exact Or.inl hma
        · exact Or.inr hma
    | error e =>
        rw [mkAdaAttN, hact] at hm
        exact Except.noConfusion hm

/-- Witness for C9 at the concrete unknown name "relu" and at "cosine". -/
theorem C9_activation_name_validation_witness :
    ("relu" ≠ "softmax" ∧ "relu" ≠ "cosine" ∧
      mkAdaAttN 1 cw0 cw0 cw0 "relu"
        = .error ("Unknown activation function: " ++ "relu")) ∧
    (∃ m, mkAdaAttN 1 cw0 cw0 cw0 "cosine" = .ok m) :=
  ⟨⟨by decide, by decide,
    (C9_activation_name_validation 1 cw0 cw0 cw0 "relu").2.1 (by decide) (by decide)⟩,
    (C9_activation_name_validation 1 cw0 cw0 cw0 "cosine").1.mpr (Or.inr rfl)⟩

/-- C10: under nonzero query-row and key-column norms and nonzero row sums of
the shifted scores, the cosine scorer's attention matrix is entrywise
nonnegative and row-stochastic: cosine similarity lies in [-1, 1] by the
Cauchy-Schwarz inequality, the +1 shift makes the scores nonnegative, and
dividing by the row sum normalizes each row to total 1. -/
theorem C10_cosine_rows_stochastic (q k : T3)
    (hqc : q.c = k.r)
    (hq : ∀ b i, Real.sqrt (∑ m ∈ Finset.range q.c, (q.data b i m) ^ 2) ≠ 0)
    (hk : ∀ b j, Real.sqrt (∑ m ∈ Finset.range k.r, (k.data b m j) ^ 2) ≠ 0)
    (hs : ∀ b i, (∑ j ∈ Finset.range k.c, (CosineSimilarity.scores q k).data b i j) ≠ 0) :
    (∀ b i j, 0 ≤ (CosineSimilarity.forward q k).data b i j) ∧
    (∀ b i, ∑ j ∈ Finset.range (CosineSimilarity.forward q k).c,
      (CosineSimilarity.forward q k).data b i j = 1) := by
  have hscore : ∀ b i j, 0 ≤ (CosineSimilarity.scores q k).data b i j := by
    intro b i j
    show 0 ≤ (bmm q k).data b i j
      / (bmm (vecNormLastDim q) (vecNormDim1 k)).data b i j + 1
    have hden : (bmm (vecNormLastDim q) (vecNormDim1 k)).data b i j
        = Real.sqrt (∑ m ∈ Finset.range q.c, (q.data b i m) ^ 2)
          * Real.sqrt (∑ m ∈ Finset.range k.r, (k.data b m j) ^ 2) := by
      show (∑ m ∈ Finset.range 1,
        (vecNormLastDim q).data b i m * (vecNormDim1 k).data b m j) = _
      rw [Finset.sum_range_one]
      rfl
    have hNq : 0 < Real.sqrt (∑ m ∈ Finset.range q.c, (q.data b i m) ^ 2) :=
      lt_of_le_of_ne (Real.sqrt_nonneg _) (Ne.symm (hq b i))
    have hNk : 0 < Real.sqrt (∑ m ∈ Finset.range k.r, (k.data b m j) ^ 2) :=
      lt_of_le_of_ne (Real.sqrt_nonneg _) (Ne.symm (hk b j))
    have hsumq : (0:ℝ) ≤ ∑ m ∈ Finset.range q.c, (q.data b i m) ^ 2 :=
      Finset.sum_nonneg fun _ _ => sq_nonneg _
    have hk2 : (∑ m ∈ Finset.range q.c, (k.data b m j) ^ 2)
        = ∑ m ∈ Finset.range k.r, (k.data b m j) ^ 2 := by rw [hqc]
    have hcs : ((bmm q k).data b i j) ^ 2
        ≤ (∑ m ∈ Finset.range q.c, (q.data b i m) ^ 2)
          * (∑ m ∈ Finset.range k.r, (k.data b m j) ^ 2) := by
      rw [← hk2]
      show (∑ m ∈ Finset.range q.c, q.data b i m * k.data b m j) ^ 2 ≤ _
      exact Finset.sum_mul_sq_le_sq_mul_sq _ _ _
    have habs : |(bmm q k).data b i j|
        ≤ Real.sqrt (∑ m ∈ Finset.range q.c, (q.data b i m) ^ 2)
          * Real.sqrt (∑ m ∈ Finset.range k.r, (k.data b m j) ^ 2) := by
      calc |(bmm q k).data b i j|
          = Real.sqrt (((bmm q k).data b i j) ^ 2) := (Real.sqrt_sq_eq_abs _).symm
        _ ≤ Real.sqrt ((∑ m ∈ Finset.range q.c, (q.data b i m) ^ 2)
              * (∑ m ∈ Finset.range k.r, (k.data b m j) ^ 2)) :=
            Real.sqrt_le_sqrt hcs
        _ = _ := Real.sqrt_mul hsumq _
    have hD : 0 < Real.sqrt (∑ m ∈ Finset.range q.c, (q.data b i m) ^ 2)
        * Real.sqrt (∑ m ∈ Finset.range k.r, (k.data b m j) ^ 2) := mul_pos hNq hNk
    have hlow : -(Real.sqrt (∑ m ∈ Finset.range q.c, (q.data b i m) ^ 2)
        * Real.sqrt (∑ m ∈ Finset.range k.r, (k.data b m j) ^ 2))
        ≤ (bmm q k).data b i j := (abs_le.mp habs).1
    have hratio : (-1 : ℝ) ≤ (bmm q k).data b i j
        / (bmm (vecNormLastDim q) (vecNormDim1 k)).data b i j := by
      rw [hden, le_div_iff₀ hD]
      linarith
    linarith
  constructor
  · intro b i j
    show 0 ≤ (CosineSimilarity.scores q k).data b i j
      / ∑ m ∈ Finset.range k.c, (CosineSimilarity.scores q k).data b i m
    exact div_nonneg (hscore b i j)
      (Finset.sum_nonneg fun m _ => hscore b i m)
  · intro b i
    show (∑ j ∈ Finset.range k.c, (CosineSimilarity.scores q k).data b i j
      / ∑ m ∈ Finset.range k.c, (CosineSimilarity.scores q k).data b i m) = 1
    rw [← Finset.sum_div]
    exact div_self (hs b i)

/-- Witness for C10 at a concrete all-one one-token query/key pair. -/
theorem C10_cosine_rows_stochastic_witness :
    t3one.c = t3one.r ∧
    ((∀ b i j, 0 ≤ (CosineSimilarity.forward t3one t3one).data b i j) ∧
      (∀ b i, ∑ j ∈ Finset.range (CosineSimilarity.forward t3one t3one).c,
        (CosineSimilarity.forward t3one t3one).data b i j = 1)) := by
  refine ⟨rfl, C10_cosine_rows_stochastic t3one t3one rfl ?_ ?_ ?_⟩
  · intro b i
    norm_num [t3one, Real.sqrt_one]
  · intro b i
    norm_num [t3one, Real.sqrt_one]
  · intro b i
    norm_num [t3one, CosineSimilarity.scores, addScalarT3, divT3, bmm,
      vecNormLastDim, vecNormDim1, Real.sqrt_one]

end

end SaVSTr
